import Mathlib

/-!
Verification of the voting-system backend (Express + SQLite server, `server.js`).

The server keeps three tables — `candidates(id, name, position)`,
`votes(id, voter_name, candidate_id, timestamp)` and `settings(key, value)` —
and exposes CRUD routes plus a tally route.  This file gives a shallow
embedding of those routes and proves properties about them.

Modelling conventions:
* strings are `List Char`; JavaScript `String.prototype.trim` is `trimStr`,
  and SQLite `LOWER` (ASCII case folding) is `lowerStr`;
* SQL `INTEGER` columns are `Int`; `AUTOINCREMENT` ids are an explicit
  counter in the store;
* request-body fields are `Option` values, with JavaScript falsiness
  (`undefined` / `null` ↦ `none`, and the falsy values `""` and `0` kept
  explicit) modelled at each use site exactly as the route checks it;
* each route handler becomes a pure function from the store (and the
  request data) to a result and an updated store.
-/

/-- Whitespace test used by `trim`. -/
def isWs (c : Char) : Bool := c.isWhitespace

/-- ASCII lower-casing of one character, as SQLite `LOWER` folds it.
Written as an explicit 26-way case split on the upper-case letters. -/
def lowerChar (c : Char) : Char :=
  if c = 'A' then 'a' else if c = 'B' then 'b' else if c = 'C' then 'c'
  else if c = 'D' then 'd' else if c = 'E' then 'e' else if c = 'F' then 'f'
  else if c = 'G' then 'g' else if c = 'H' then 'h' else if c = 'I' then 'i'
  else if c = 'J' then 'j' else if c = 'K' then 'k' else if c = 'L' then 'l'
  else if c = 'M' then 'm' else if c = 'N' then 'n' else if c = 'O' then 'o'
  else if c = 'P' then 'p' else if c = 'Q' then 'q' else if c = 'R' then 'r'
  else if c = 'S' then 's' else if c = 'T' then 't' else if c = 'U' then 'u'
  else if c = 'V' then 'v' else if c = 'W' then 'w' else if c = 'X' then 'x'
  else if c = 'Y' then 'y' else if c = 'Z' then 'z' else c

/-- SQLite `LOWER` on a whole string. -/
def lowerStr (s : List Char) : List Char := s.map lowerChar

/-- JavaScript `String.prototype.trim`: drop leading and trailing whitespace. -/
def trimStr (s : List Char) : List Char :=
  ((s.dropWhile isWs).reverse.dropWhile isWs).reverse

/-- A row of the `candidates` table. -/
structure Candidate where
  id : Int
  name : List Char
  position : Int
deriving DecidableEq

/-- A row of the `votes` table. -/
structure Vote where
  id : Int
  voterName : List Char
  candidateId : Int
  timestamp : Int
deriving DecidableEq

/-- The `settings` table; initialisation fixes its key set to exactly
`results_published` and `winner_announced`, so it is modelled as a record
with one stringly-typed value per key. -/
structure Settings where
  results_published : List Char
  winner_announced : List Char
deriving DecidableEq

/-- The persistent store (the SQLite database), plus the `AUTOINCREMENT`
counters for the two id columns. -/
structure Store where
  candidates : List Candidate
  votes : List Vote
  settings : Settings
  nextCandidateId : Int
  nextVoteId : Int
deriving DecidableEq

/-- Settings as they are initialised: both flags are the string false. -/
def initialSettings : Settings :=
  { results_published := "false".toList, winner_announced := "false".toList }

/-- A store with no candidates and no votes. -/
def emptyStore : Store :=
  { candidates := [], votes := [], settings := initialSettings
  , nextCandidateId := 1, nextVoteId := 1 }

/-- Outcome of `POST /api/votes`. -/
inductive CastResult where
  | validationError
  | conflictError
  | notFoundError
  | ok (voteId : Int)
deriving DecidableEq

/-- Outcome of `POST /api/candidates`. -/
inductive AddResult where
  | validationError
  | ok (c : Candidate)
deriving DecidableEq

/-- Outcome of `DELETE /api/candidates/:id`. -/
inductive RemoveResult where
  | conflictError
  | notFoundError
  | ok
deriving DecidableEq

/-- The observable part of an HTTP response: the status code and the
`error` field of the JSON body (absent on success). -/
structure HttpResponse where
  status : Nat
  error : Option (List Char)
deriving DecidableEq

/-- An unexpected storage-layer failure (the `err` object a sqlite3
callback receives), carrying its internal message. -/
structure DbErr where
  message : List Char
deriving DecidableEq

/-- A JSON request-body value, as far as JavaScript truthiness is
concerned. -/
inductive JsVal where
  | undef
  | jsNull
  | jsBool (b : Bool)
  | jsNum (n : Int)
  | jsStr (s : List Char)
deriving DecidableEq

/-- JavaScript truthiness of a body field (`NaN` is not modelled). -/
def truthy : JsVal → Bool
  | .undef => false
  | .jsNull => false
  | .jsBool b => b
  | .jsNum n => decide (n ≠ 0)
  | .jsStr s => decide (s ≠ [])

/-- The SQL query `SELECT id FROM votes WHERE LOWER(voter_name) = LOWER(?)`
shared by the vote route and the voter-check route: does some stored vote
match `name` case-insensitively?  `LOWER` is applied to both sides; the
callers differ in whether they trim the parameter first. -/
def hasVotedCheck (votes : List Vote) (name : List Char) : Bool :=
  votes.any (fun v => lowerStr v.voterName == lowerStr name)

/-- `GET /api/voters/:name/check`: the route passes `req.params.name`
through without trimming it. -/
def hasVoted (s : Store) (name : List Char) : Bool :=
  hasVotedCheck s.votes name

/-- `POST /api/votes`.  The route rejects falsy `voterName`/`candidateId`
(`!voterName || !candidateId`), then runs the already-voted query on the
trimmed name, then looks the candidate up, and finally inserts the vote
with the trimmed name and the current timestamp. -/
def castVote (s : Store) (voterName : Option (List Char))
    (candidateId : Option Int) (now : Int) : CastResult × Store :=
  match voterName, candidateId with
  | some vn, some cid =>
    if vn = [] ∨ cid = 0 then (CastResult.validationError, s)
    else if hasVotedCheck s.votes (trimStr vn) then (CastResult.conflictError, s)
    else if s.candidates.any (fun c => c.id == cid) then
      (CastResult.ok s.nextVoteId,
       { s with
         votes := s.votes ++
           [{ id := s.nextVoteId, voterName := trimStr vn
            , candidateId := cid, timestamp := now }]
         nextVoteId := s.nextVoteId + 1 })
    else (CastResult.notFoundError, s)
  | _, _ => (CastResult.validationError, s)

/-- The value of `SELECT MAX(position) FROM candidates`: `none` models SQL
`NULL` on an empty table. -/
def maxPosAux : List Int → Option Int
  | [] => none
  | p :: ps =>
    match maxPosAux ps with
    | none => some p
    | some m => some (max p m)

/-- `POST /api/candidates`.  Rejects a missing, empty or whitespace-only
name (`!name || name.trim().length === 0`); otherwise inserts the trimmed
name at position `(row.maxPos || 0) + 1`. -/
def addCandidate (s : Store) (name : Option (List Char)) : AddResult × Store :=
  match name with
  | none => (AddResult.validationError, s)
  | some n =>
    if n = [] ∨ trimStr n = [] then (AddResult.validationError, s)
    else
      let nextPosition := (maxPosAux (s.candidates.map (fun c => c.position))).getD 0 + 1
      let c : Candidate :=
        { id := s.nextCandidateId, name := trimStr n, position := nextPosition }
      (AddResult.ok c,
       { s with candidates := s.candidates ++ [c]
              , nextCandidateId := s.nextCandidateId + 1 })

/-- Run a sequence of `POST /api/candidates` requests in order. -/
def addAll (s : Store) : List (List Char) → Store
  | [] => s
  | n :: ns => addAll (addCandidate s (some n)).2 ns

/-- `DELETE /api/candidates/:id`.  After the `DELETE` statement, the route
runs `UPDATE candidates SET position = position - 1 WHERE position >
(SELECT position FROM candidates WHERE id = ?)`.  That subquery runs
against the table AFTER the row was deleted, so it yields SQL `NULL`, the
comparison `position > NULL` is never true, and the update changes no
rows.  The `match` below keeps that subquery lookup explicit: it is always
`none` because the row with id `cid` was just filtered out. -/
def removeCandidate (s : Store) (cid : Int) : RemoveResult × Store :=
  if 0 < s.votes.countP (fun v => v.candidateId == cid) then
    (RemoveResult.conflictError, s)
  else if s.candidates.any (fun c => c.id == cid) then
    let afterDelete := s.candidates.filter (fun c => ¬ c.id == cid)
    let sub : Option Int := (afterDelete.find? (fun c => c.id == cid)).map (fun c => c.position)
    let repacked :=
      match sub with
      | none => afterDelete
      | some p => afterDelete.map (fun c =>
          if p < c.position then { c with position := c.position - 1 } else c)
    (RemoveResult.ok, { s with candidates := repacked })
  else (RemoveResult.notFoundError, s)

/-- `DELETE /api/votes`.  The outer callback is a `function`, so
`this.changes` is the number of rows the `DELETE FROM votes` statement
removed; the inner settings-update callback is an arrow function and does
not rebind `this`, so the reported `deletedCount` is that same number. -/
def resetVotes (s : Store) : Nat × Store :=
  (s.votes.length,
   { s with votes := []
          , settings := { s.settings with results_published := "false".toList } })

/-- A row of the `GET /api/voters` response. -/
structure VoterRow where
  voter_name : List Char
  candidate_name : List Char
  timestamp : Int
deriving DecidableEq

/-- `GET /api/voters`: join each vote with its candidate (votes whose
candidate is missing drop out of the inner join) and order by timestamp
descending. -/
def listVoters (s : Store) : List VoterRow :=
  List.insertionSort (fun a b : VoterRow => b.timestamp ≤ a.timestamp)
    (s.votes.filterMap (fun v =>
      (s.candidates.find? (fun c => c.id == v.candidateId)).map (fun c =>
        { voter_name := v.voterName, candidate_name := c.name
        , timestamp := v.timestamp })))

/-- The `ORDER BY c.position` of the results query. -/
def sortByPosition (cs : List Candidate) : List Candidate :=
  List.insertionSort (fun a b : Candidate => a.position ≤ b.position) cs

/-- `COUNT(v.id)` for one candidate in the results query's grouped join. -/
def voteCount (s : Store) (cid : Int) : Nat :=
  s.votes.countP (fun v => v.candidateId == cid)

/-- The grouped rows of the results query, ordered by position; the left
join keeps candidates with zero votes. -/
def tallyRows (s : Store) : List (Candidate × Nat) :=
  (sortByPosition s.candidates).map (fun c => (c, voteCount s c.id))

/-- `totalVotes`: the sum of the per-candidate counts. -/
def totalVotesOf (s : Store) : Nat :=
  ((tallyRows s).map (fun p => p.2)).sum

/-- Rounding to one decimal place, the rule `toFixed(1)` applies to the
value the route computed: the nearest multiple of one tenth, picking the
larger candidate at a tie (half up for the nonnegative values that arise
here). -/
def round1 (q : ℚ) : ℚ := (⌊q * 10 + 1 / 2⌋ : ℚ) / 10

/-- Round to the nearest integer, ties to even — the rounding IEEE
binary64 applies to a scaled 53-bit mantissa. -/
def rne (q : ℚ) : ℤ :=
  if q - ⌊q⌋ < 1 / 2 then ⌊q⌋
  else if 1 / 2 < q - ⌊q⌋ then ⌊q⌋ + 1
  else if ⌊q⌋ % 2 = 0 then ⌊q⌋ else ⌊q⌋ + 1

/-- The IEEE binary64 double nearest to `q`, exact for the nonnegative
normal-range values the route produces (vote shares in `[0, 1]` and
percentages in `[0, 100]`): scale so the mantissa is a 53-bit integer,
round it to nearest (ties to even), scale back.  JavaScript rounds every
arithmetic operation this way. -/
def toDouble (q : ℚ) : ℚ :=
  if q = 0 then 0
  else (rne (q / 2 ^ (Int.log 2 q - 52)) : ℚ) * 2 ^ (Int.log 2 q - 52)

/-- The percentage the route computes for `count` votes out of `total`:
`(count / total) * 100` with each binary64 operation rounded (`count` and
`total` themselves are exact doubles, being integers far below `2 ^ 53`),
then `toFixed(1)`, which is `round1` of the resulting double. -/
def jsPct (count total : ℕ) : ℚ :=
  round1 (toDouble (toDouble ((count : ℚ) / (total : ℚ)) * 100))

/-- One element of the `results` array of `GET /api/results`. -/
structure ResultRow where
  id : Int
  name : List Char
  position : Int
  vote_count : Nat
  percentage : ℚ
deriving DecidableEq

/-- The mapped rows: percentage is `toFixed(1)` of the binary64-computed
vote share when `totalVotes > 0`, and the literal `0` otherwise. -/
def resultsOf (s : Store) : List ResultRow :=
  (tallyRows s).map (fun p =>
    { id := p.1.id, name := p.1.name, position := p.1.position
    , vote_count := p.2
    , percentage :=
        if 0 < totalVotesOf s then jsPct p.2 (totalVotesOf s)
        else 0 })

/-- The maximum of a list of counts; `none` models the `-Infinity` that
`Math.max(...[])` returns on an empty candidates table. -/
def listMax : List Nat → Option Nat
  | [] => none
  | n :: ns =>
    match listMax ns with
    | none => some n
    | some m => some (max n m)

/-- `Math.max(...results.map(r => r.vote_count))`. -/
def maxVotesOf (s : Store) : Option Nat :=
  listMax ((resultsOf s).map (fun r => r.vote_count))

/-- `results.filter(r => r.vote_count === maxVotes && maxVotes > 0)`. -/
def winnersOf (s : Store) : List ResultRow :=
  (resultsOf s).filter (fun r =>
    match maxVotesOf s with
    | some m => r.vote_count == m && decide (0 < m)
    | none => false)

/-- The body of `GET /api/results`. -/
structure TallyResult where
  results : List ResultRow
  totalVotes : Nat
  winner : Option ResultRow
  tie : Bool
deriving DecidableEq

/-- `GET /api/results`: `winner` is `winners[0]` exactly when one row wins,
and `tie` is `winners.length > 1 && maxVotes > 0`. -/
def tally (s : Store) : TallyResult :=
  { results := resultsOf s
  , totalVotes := totalVotesOf s
  , winner := if (winnersOf s).length = 1 then (winnersOf s).head? else none
  , tie := decide (1 < (winnersOf s).length) &&
      (match maxVotesOf s with
       | some m => decide (0 < m)
       | none => false) }

/-- `POST /api/results/publish`: no validation at all; the stored value is
the string true exactly when the `publish` field is truthy, so an absent
field stores false.  The response is always a success. -/
def publishResults (s : Store) (publish : JsVal) : HttpResponse × Store :=
  ({ status := 200, error := none },
   { s with settings :=
       { s.settings with
         results_published := if truthy publish then "true".toList else "false".toList } })

/-- `GET /api/candidates` as a function of the storage outcome: on a
storage failure the route answers `res.status(500).json({ error:
err.message })`, passing the internal message through verbatim. -/
def getCandidates (dbResult : Except DbErr (List Candidate)) : HttpResponse :=
  match dbResult with
  | Except.error e => { status := 500, error := some e.message }
  | Except.ok _ => { status := 200, error := none }

/-- The terminal error-handling middleware: a generic message for
exceptions that reach it. -/
def errorMiddleware (_e : DbErr) : HttpResponse :=
  { status := 500, error := some ("Something went wrong!".toList) }

/-- Status codes of the vote route (`res.status(400/400/404)` and the
default 200 of `res.json`). -/
def castStatus : CastResult → Nat
  | CastResult.validationError => 400
  | CastResult.conflictError => 400
  | CastResult.notFoundError => 404
  | CastResult.ok _ => 200

/-- Status codes of the add-candidate route. -/
def addStatus : AddResult → Nat
  | AddResult.validationError => 400
  | AddResult.ok _ => 200

/-- Status codes of the delete-candidate route. -/
def removeStatus : RemoveResult → Nat
  | RemoveResult.conflictError => 400
  | RemoveResult.notFoundError => 404
  | RemoveResult.ok => 200

/-- Is a cast outcome a success? -/
def isOk : CastResult → Bool
  | CastResult.ok _ => true
  | _ => false

/-- All stored voter names are already trimmed (every insert path trims). -/
def VotesTrimmed (s : Store) : Prop :=
  ∀ v ∈ s.votes, trimStr v.voterName = v.voterName

/-- No two stored votes agree after trimming and case folding. -/
def VotersDistinct (s : Store) : Prop :=
  s.votes.Pairwise (fun a b => lowerStr (trimStr a.voterName) ≠ lowerStr (trimStr b.voterName))

/-- The dense position sequence `1, 2, …, k`. -/
def posList (k : Nat) : List Int := (List.range k).map (fun i => (i : Int) + 1)

/-- A store with three zero-vote candidates at positions 1, 2, 3. -/
def demoRemove : Store :=
  { candidates :=
      [ { id := 1, name := ['A'], position := 1 }
      , { id := 2, name := ['B'], position := 2 }
      , { id := 3, name := ['C'], position := 3 } ]
  , votes := [], settings := initialSettings
  , nextCandidateId := 4, nextVoteId := 1 }

/-- A store with one candidate and no votes. -/
def demoOneCand : Store :=
  { candidates := [{ id := 1, name := ['A'], position := 1 }]
  , votes := [], settings := initialSettings
  , nextCandidateId := 2, nextVoteId := 1 }

/-- A store whose three candidates have vote counts 3, 3 and 1. -/
def demo331 : Store :=
  { candidates :=
      [ { id := 1, name := ['A'], position := 1 }
      , { id := 2, name := ['B'], position := 2 }
      , { id := 3, name := ['C'], position := 3 } ]
  , votes :=
      [ { id := 1, voterName := ['a'], candidateId := 1, timestamp := 1 }
      , { id := 2, voterName := ['b'], candidateId := 1, timestamp := 2 }
      , { id := 3, voterName := ['c'], candidateId := 1, timestamp := 3 }
      , { id := 4, voterName := ['d'], candidateId := 2, timestamp := 4 }
      , { id := 5, voterName := ['e'], candidateId := 2, timestamp := 5 }
      , { id := 6, voterName := ['f'], candidateId := 2, timestamp := 6 }
      , { id := 7, voterName := ['g'], candidateId := 3, timestamp := 7 } ]
  , settings := initialSettings
  , nextCandidateId := 4, nextVoteId := 8 }

/-- A store whose three candidates have vote counts 5, 2 and 1. -/
def demo521 : Store :=
  { candidates :=
      [ { id := 1, name := ['A'], position := 1 }
      , { id := 2, name := ['B'], position := 2 }
      , { id := 3, name := ['C'], position := 3 } ]
  , votes :=
      [ { id := 1, voterName := ['a'], candidateId := 1, timestamp := 1 }
      , { id := 2, voterName := ['b'], candidateId := 1, timestamp := 2 }
      , { id := 3, voterName := ['c'], candidateId := 1, timestamp := 3 }
      , { id := 4, voterName := ['d'], candidateId := 1, timestamp := 4 }
      , { id := 5, voterName := ['e'], candidateId := 1, timestamp := 5 }
      , { id := 6, voterName := ['f'], candidateId := 2, timestamp := 6 }
      , { id := 7, voterName := ['g'], candidateId := 2, timestamp := 7 }
      , { id := 8, voterName := ['h'], candidateId := 3, timestamp := 8 } ]
  , settings := initialSettings
  , nextCandidateId := 4, nextVoteId := 9 }

/-- A store whose three candidates all have zero votes. -/
def demo000 : Store :=
  { candidates :=
      [ { id := 1, name := ['A'], position := 1 }
      , { id := 2, name := ['B'], position := 2 }
      , { id := 3, name := ['C'], position := 3 } ]
  , votes := [], settings := initialSettings
  , nextCandidateId := 4, nextVoteId := 1 }

/-- A store holding a single (trimmed) vote by voter `alice`. -/
def demoVoted : Store :=
  { candidates := [{ id := 1, name := ['A'], position := 1 }]
  , votes := [{ id := 1, voterName := ['a','l','i','c','e'], candidateId := 1, timestamp := 0 }]
  , settings := initialSettings
  , nextCandidateId := 2, nextVoteId := 2 }

/-- A store whose three candidates have one vote each. -/
def demoThirds : Store :=
  { candidates :=
      [ { id := 1, name := ['A'], position := 1 }
      , { id := 2, name := ['B'], position := 2 }
      , { id := 3, name := ['C'], position := 3 } ]
  , votes :=
      [ { id := 1, voterName := ['a'], candidateId := 1, timestamp := 1 }
      , { id := 2, voterName := ['b'], candidateId := 2, timestamp := 2 }
      , { id := 3, voterName := ['c'], candidateId := 3, timestamp := 3 } ]
  , settings := initialSettings
  , nextCandidateId := 4, nextVoteId := 4 }

/-- Distinctly named votes `lo, …, lo + k - 1`, all for one candidate. -/
def mkVotes (cid : Int) (lo k : Nat) : List Vote :=
  (List.range k).map (fun i =>
    { id := ((lo + i : Nat) : Int), voterName := [Char.ofNat (48 + lo + i)]
    , candidateId := cid, timestamp := ((lo + i : Nat) : Int) })

/-- A store whose two candidates have 23 and 57 votes (80 in total). -/
def s80 : Store :=
  { candidates :=
      [ { id := 1, name := ['A'], position := 1 }
      , { id := 2, name := ['B'], position := 2 } ]
  , votes := mkVotes 1 0 23 ++ mkVotes 2 23 57
  , settings := initialSettings
  , nextCandidateId := 3, nextVoteId := 81 }

/-! ### Helper lemmas: case folding and trimming -/

set_option maxHeartbeats 1000000 in
theorem isWs_lowerChar (c : Char) : isWs (lowerChar c) = isWs c := by
  unfold lowerChar
  by_cases h1 : c = 'A'
  · subst h1; decide
  rw [if_neg h1]
  by_cases h2 : c = 'B'
  · subst h2; decide
  rw [if_neg h2]
  by_cases h3 : c = 'C'
  · subst h3; decide
  rw [if_neg h3]
  by_cases h4 : c = 'D'
  · subst h4; decide
  rw [if_neg h4]
  by_cases h5 : c = 'E'
  · subst h5; decide
  rw [if_neg h5]
  by_cases h6 : c = 'F'
  · subst h6; decide
  rw [if_neg h6]
  by_cases h7 : c = 'G'
  · subst h7; decide
  rw [if_neg h7]
  by_cases h8 : c = 'H'
  · subst h8; decide
  rw [if_neg h8]
  by_cases h9 : c = 'I'
  · subst h9; decide
  rw [if_neg h9]
  by_cases h10 : c = 'J'
  · subst h10; decide
  rw [if_neg h10]
  by_cases h11 : c = 'K'
  · subst h11; decide
  rw [if_neg h11]
  by_cases h12 : c = 'L'
  · subst h12; decide
  rw [if_neg h12]
  by_cases h13 : c = 'M'
  · subst h13; decide
  rw [if_neg h13]
  by_cases h14 : c = 'N'
  · subst h14; decide
  rw [if_neg h14]
  by_cases h15 : c = 'O'
  · subst h15; decide
  rw [if_neg h15]
  by_cases h16 : c = 'P'
  · subst h16; decide
  rw [if_neg h16]
  by_cases h17 : c = 'Q'
  · subst h17; decide
  rw [if_neg h17]
  by_cases h18 : c = 'R'
  · subst h18; decide
  rw [if_neg h18]
  by_cases h19 : c = 'S'
  · subst h19; decide
  rw [if_neg h19]
  by_cases h20 : c = 'T'
  · subst h20; decide
  rw [if_neg h20]
  by_cases h21 : c = 'U'
  · subst h21; decide
  rw [if_neg h21]
  by_cases h22 : c = 'V'
  · subst h22; decide
  rw [if_neg h22]
  by_cases h23 : c = 'W'
  · subst h23; decide
  rw [if_neg h23]
  by_cases h24 : c = 'X'
  · subst h24; decide
  rw [if_neg h24]
  by_cases h25 : c = 'Y'
  · subst h25; decide
  rw [if_neg h25]
  by_cases h26 : c = 'Z'
  · subst h26; decide
  rw [if_neg h26]

theorem dropWhile_dropWhile_self (p : Char → Bool) (l : List Char) :
    List.dropWhile p (List.dropWhile p l) = List.dropWhile p l := by
  induction l with
  | nil => rfl
  | cons a t ih =>
    by_cases h : p a
    · simp [List.dropWhile_cons, h, ih]
    · simp [List.dropWhile_cons, h]

theorem dropWhile_app_eq (p : Char → Bool) (l : List Char) :
    ∃ r, r ++ List.dropWhile p l = l := by
  induction l with
  | nil => exact ⟨[], rfl⟩
  | cons a t ih =>
    by_cases h : p a
    · obtain ⟨r, hr⟩ := ih
      exact ⟨a :: r, by simp [List.dropWhile_cons, h, hr]⟩
    · exact ⟨[], by simp [List.dropWhile_cons, h]⟩

theorem head_dropWhile_false (p : Char → Bool) (l : List Char) (a : Char)
    (h : (List.dropWhile p l).head? = some a) : p a = false := by
  induction l with
  | nil => simp [List.dropWhile] at h
  | cons b t ih =>
    by_cases hb : p b
    · rw [List.dropWhile_cons, if_pos hb] at h
      exact ih h
    · rw [List.dropWhile_cons, if_neg hb] at h
      simp only [List.head?, Option.some.injEq] at h
      rw [← h]
      simpa using hb

theorem dropWhile_eq_self_of_head (p : Char → Bool) (l : List Char)
    (h : ∀ a, l.head? = some a → p a = false) : List.dropWhile p l = l := by
  cases l with
  | nil => rfl
  | cons b t => simp [List.dropWhile_cons, h b rfl]

theorem lowerStr_dropWhile (l : List Char) :
    List.dropWhile isWs (lowerStr l) = lowerStr (List.dropWhile isWs l) := by
  induction l with
  | nil => rfl
  | cons a t ih =>
    by_cases h : isWs a
    · have h2 : isWs (lowerChar a) = true := by rw [isWs_lowerChar]; exact h
      simpa [lowerStr, List.dropWhile_cons, h, h2] using ih
    · have h2 : isWs (lowerChar a) = false := by rw [isWs_lowerChar]; simpa using h
      simp [lowerStr, List.dropWhile_cons, h, h2]

theorem lowerStr_reverse (l : List Char) : lowerStr l.reverse = (lowerStr l).reverse := by
  simp [lowerStr]

theorem lowerStr_trimStr (l : List Char) : lowerStr (trimStr l) = trimStr (lowerStr l) := by
  show lowerStr (((List.dropWhile isWs l).reverse.dropWhile isWs).reverse) = _
  rw [lowerStr_reverse, ← lowerStr_dropWhile, lowerStr_reverse, ← lowerStr_dropWhile]
  rfl

theorem trimmed_head_not_ws (l : List Char) (a : Char)
    (h : (trimStr l).head? = some a) : isWs a = false := by
  obtain ⟨r, hr⟩ := dropWhile_app_eq isWs ((List.dropWhile isWs l).reverse)
  have hu : trimStr l ++ r.reverse = List.dropWhile isWs l := by
    have h2 := congrArg List.reverse hr
    simpa [trimStr, List.reverse_append] using h2
  cases htl : trimStr l with
  | nil => rw [htl] at h; simp at h
  | cons b t =>
    rw [htl] at h
    simp only [List.head?, Option.some.injEq] at h
    apply head_dropWhile_false isWs l a
    rw [← hu, htl, ← h]
    rfl

theorem trimStr_dropWhile_self (l : List Char) :
    List.dropWhile isWs (trimStr l) = trimStr l :=
  dropWhile_eq_self_of_head _ _ (fun a h => trimmed_head_not_ws l a h)

theorem trimStr_trimStr (l : List Char) : trimStr (trimStr l) = trimStr l := by
  show ((List.dropWhile isWs (trimStr l)).reverse.dropWhile isWs).reverse = trimStr l
  rw [trimStr_dropWhile_self]
  have h2 : (trimStr l).reverse = List.dropWhile isWs ((List.dropWhile isWs l).reverse) := by
    show (((List.dropWhile isWs l).reverse.dropWhile isWs).reverse).reverse = _
    rw [List.reverse_reverse]
  rw [h2, dropWhile_dropWhile_self]
  rfl

/-! ### Helper lemmas: positions, maxima and rounding -/

theorem maxPosAux_append (l : List Int) (a : Int) :
    maxPosAux (l ++ [a]) =
      some (match maxPosAux l with | none => a | some m => max m a) := by
  induction l with
  | nil => rfl
  | cons b t ih =>
    show maxPosAux (b :: (t ++ [a])) = _
    cases h : maxPosAux t with
    | none => simp [maxPosAux, ih, h]
    | some m =>
      simp [maxPosAux, ih, h]
      rw [max_assoc]

theorem maxPosAux_posList (k : Nat) :
    maxPosAux (posList k) = if k = 0 then none else some (k : Int) := by
  induction k with
  | zero => rfl
  | succ n ih =>
    have hsplit : posList (n + 1) = posList n ++ [(n : Int) + 1] := by
      simp [posList, List.range_succ]
    rw [hsplit, maxPosAux_append, ih]
    by_cases h : n = 0
    · subst h; simp
    · have hmax : max (n : Int) ((n : Int) + 1) = (n : Int) + 1 := max_eq_right (by omega)
      simp [h, hmax]

theorem round1_err (q : ℚ) : |round1 q - q| ≤ 1 / 20 := by
  rw [round1, abs_le]
  have h1 : (⌊q * 10 + 1 / 2⌋ : ℚ) ≤ q * 10 + 1 / 2 := Int.floor_le _
  have h2 : q * 10 + 1 / 2 < (⌊q * 10 + 1 / 2⌋ : ℚ) + 1 := Int.lt_floor_add_one _
  constructor <;> linarith

theorem rne_le_half (q : ℚ) : |(rne q : ℚ) - q| ≤ 1 / 2 := by
  have h1 : (⌊q⌋ : ℚ) ≤ q := Int.floor_le q
  have h2 : q < (⌊q⌋ : ℚ) + 1 := Int.lt_floor_add_one q
  rw [rne]
  split_ifs with ha hb hc <;> (rw [abs_le] ; push_cast ; constructor <;> linarith)

theorem rne_nonneg (q : ℚ) (hq : 0 ≤ q) : 0 ≤ rne q := by
  have h1 : 0 ≤ ⌊q⌋ := Int.floor_nonneg.mpr hq
  rw [rne]
  split_ifs <;> omega

theorem toDouble_nonneg (q : ℚ) (hq : 0 ≤ q) : 0 ≤ toDouble q := by
  rw [toDouble]
  split_ifs with h
  · exact le_refl 0
  · apply mul_nonneg
    · exact_mod_cast rne_nonneg _ (by positivity)
    · positivity

theorem toDouble_err (q : ℚ) (hq : 0 ≤ q) : |toDouble q - q| ≤ q / 2 ^ 52 := by
  rw [toDouble]
  split_ifs with h
  · simp [h]
  · have hq0 : 0 < q := lt_of_le_of_ne hq (Ne.symm h)
    have he : (0 : ℚ) < 2 ^ (Int.log 2 q - 52) := by positivity
    have hrne := rne_le_half (q / 2 ^ (Int.log 2 q - 52))
    have hlog : (2 : ℚ) ^ Int.log 2 q ≤ q := by
      have h2 := Int.zpow_log_le_self (b := 2) one_lt_two hq0
      simpa using h2
    have hsplit : (2 : ℚ) ^ (Int.log 2 q - 52) = 2 ^ Int.log 2 q / 2 ^ (52 : ℕ) := by
      rw [zpow_sub₀ two_ne_zero]
      norm_num
    have hfac : (rne (q / 2 ^ (Int.log 2 q - 52)) : ℚ) * 2 ^ (Int.log 2 q - 52) - q =
        ((rne (q / 2 ^ (Int.log 2 q - 52)) : ℚ) - q / 2 ^ (Int.log 2 q - 52)) *
          2 ^ (Int.log 2 q - 52) := by
      rw [sub_mul, div_mul_cancel₀ _ (ne_of_gt he)]
    rw [hfac, abs_mul, abs_of_pos he]
    calc |(rne (q / 2 ^ (Int.log 2 q - 52)) : ℚ) - q / 2 ^ (Int.log 2 q - 52)| *
          2 ^ (Int.log 2 q - 52)
        ≤ (1 / 2) * 2 ^ (Int.log 2 q - 52) :=
          mul_le_mul_of_nonneg_right hrne (le_of_lt he)
      _ ≤ (1 / 2) * (q / 2 ^ (52 : ℕ)) := by
          have hd : (2 : ℚ) ^ Int.log 2 q / 2 ^ (52 : ℕ) ≤ q / 2 ^ (52 : ℕ) :=
            (div_le_div_iff_of_pos_right (by positivity)).mpr hlog
          rw [hsplit]
          linarith
      _ ≤ q / 2 ^ 52 := by
          have h3 : (0 : ℚ) ≤ q / 2 ^ (52 : ℕ) := by positivity
          linarith

theorem share_err (c T : ℕ) (hc : c ≤ T) (hT : 0 < T) :
    |toDouble (toDouble ((c : ℚ) / (T : ℚ)) * 100) - (c : ℚ) / (T : ℚ) * 100| ≤
      1 / 2 ^ 43 := by
  have hT0 : (0 : ℚ) < (T : ℚ) := by exact_mod_cast hT
  have hq0 : (0 : ℚ) ≤ (c : ℚ) / (T : ℚ) := by positivity
  have hq1 : (c : ℚ) / (T : ℚ) ≤ 1 := by
    rw [div_le_one hT0]
    exact_mod_cast hc
  have h1 := toDouble_err ((c : ℚ) / (T : ℚ)) hq0
  have h1b : |toDouble ((c : ℚ) / (T : ℚ)) - (c : ℚ) / (T : ℚ)| ≤ 1 / 2 ^ 52 := by
    refine le_trans h1 ?_
    exact (div_le_div_iff_of_pos_right (by positivity)).mpr hq1
  have hd0 : 0 ≤ toDouble ((c : ℚ) / (T : ℚ)) := toDouble_nonneg _ hq0
  have hd2 : toDouble ((c : ℚ) / (T : ℚ)) ≤ 2 := by
    have hab := abs_le.mp h1b
    have hsmall : (1 : ℚ) / 2 ^ 52 ≤ 1 := by norm_num
    linarith [hab.2]
  have h2 := toDouble_err (toDouble ((c : ℚ) / (T : ℚ)) * 100) (by positivity)
  have h2b : |toDouble (toDouble ((c : ℚ) / (T : ℚ)) * 100) -
      toDouble ((c : ℚ) / (T : ℚ)) * 100| ≤ 200 / 2 ^ 52 := by
    refine le_trans h2 ?_
    have hmul : toDouble ((c : ℚ) / (T : ℚ)) * 100 ≤ 200 := by linarith
    exact (div_le_div_iff_of_pos_right (by positivity)).mpr hmul
  have h3 : |toDouble ((c : ℚ) / (T : ℚ)) * 100 - (c : ℚ) / (T : ℚ) * 100| ≤
      100 / 2 ^ 52 := by
    have heq : toDouble ((c : ℚ) / (T : ℚ)) * 100 - (c : ℚ) / (T : ℚ) * 100 =
        (toDouble ((c : ℚ) / (T : ℚ)) - (c : ℚ) / (T : ℚ)) * 100 := by ring
    rw [heq, abs_mul, show |(100 : ℚ)| = 100 from by norm_num]
    have h4 := mul_le_mul_of_nonneg_right h1b (by norm_num : (0 : ℚ) ≤ 100)
    linarith
  calc |toDouble (toDouble ((c : ℚ) / (T : ℚ)) * 100) - (c : ℚ) / (T : ℚ) * 100|
      ≤ |toDouble (toDouble ((c : ℚ) / (T : ℚ)) * 100) -
          toDouble ((c : ℚ) / (T : ℚ)) * 100| +
        |toDouble ((c : ℚ) / (T : ℚ)) * 100 - (c : ℚ) / (T : ℚ) * 100| := abs_sub_le _ _ _
    _ ≤ 200 / 2 ^ 52 + 100 / 2 ^ 52 := add_le_add h2b h3
    _ ≤ 1 / 2 ^ 43 := by norm_num

theorem sum_map_err_le (l : List ℕ) (f g : ℕ → ℚ) (ε : ℚ)
    (h : ∀ n ∈ l, |f n - g n| ≤ ε) :
    |(l.map f).sum - (l.map g).sum| ≤ (l.length : ℚ) * ε := by
  induction l with
  | nil => simp
  | cons a t ih =>
    simp only [List.map_cons, List.sum_cons, List.length_cons]
    have h1 := h a (by simp)
    have h2 := ih (fun n hn => h n (by simp [hn]))
    calc |f a + (t.map f).sum - (g a + (t.map g).sum)|
        = |(f a - g a) + ((t.map f).sum - (t.map g).sum)| := by ring_nf
      _ ≤ |f a - g a| + |(t.map f).sum - (t.map g).sum| := abs_add _ _
      _ ≤ ε + (t.length : ℚ) * ε := add_le_add h1 h2
      _ = ((t.length + 1 : Nat) : ℚ) * ε := by push_cast; ring

theorem mem_le_sum (l : List ℕ) (n : ℕ) (h : n ∈ l) : n ≤ l.sum := by
  induction l with
  | nil => simp at h
  | cons a t ih =>
    simp only [List.sum_cons]
    rcases List.mem_cons.mp h with h1 | h1
    · omega
    · have h2 := ih h1
      omega

theorem int_log_eq_of (q : ℚ) (n : ℤ) (hq : 0 < q) (h1 : (2 : ℚ) ^ n ≤ q)
    (h2 : q < (2 : ℚ) ^ (n + 1)) : Int.log 2 q = n := by
  have ha : n ≤ Int.log 2 q := by
    apply (Int.zpow_le_iff_le_log one_lt_two hq).mp
    simpa using h1
  have hb : Int.log 2 q < n + 1 := by
    apply (Int.lt_zpow_iff_log_lt one_lt_two hq).mp
    simpa using h2
  omega

theorem sum_map_cast_mul (l : List Nat) (k : ℚ) :
    (l.map (fun n : Nat => (n : ℚ) * k)).sum = (l.sum : ℚ) * k := by
  induction l with
  | nil => simp
  | cons a t ih => simp [ih]; ring

/-! ### Claim theorems -/

/-- C1: contrary to the spec, `DELETE /api/candidates/:id` removes the
candidate but never re-packs positions.  On a store with zero-vote
candidates at positions 1, 2, 3, deleting candidate 1 (position 1)
succeeds yet leaves the remaining positions `[2, 3]` — not the claimed
dense `[1, 2]` — because the re-pack UPDATE's subquery reads the already
deleted row and yields NULL. -/
theorem removeCandidate_no_repack :
    (removeCandidate demoRemove 1).1 = RemoveResult.ok ∧
    ((removeCandidate demoRemove 1).2.candidates.map (fun c => c.position)) = [2, 3] ∧
    ((removeCandidate demoRemove 1).2.candidates.map (fun c => c.position)) ≠ [1, 2] := by
  decide

/-- C5 counterexample: voter `alice` has a stored vote; a query name with
a leading space is equal to it after trimming and case folding, yet the
check route reports false because it never trims the query parameter. -/
theorem hasVoted_no_trim_counterexample :
    hasVoted demoVoted (' ' :: ['a', 'l', 'i', 'c', 'e']) = false ∧
    (∃ v, v ∈ demoVoted.votes ∧
      lowerStr (trimStr v.voterName) =
        lowerStr (trimStr (' ' :: ['a', 'l', 'i', 'c', 'e']))) := by
  decide

/-- C5 (amended): `hasVoted` returns true exactly when some stored vote's
voter name equals the query name under case folding alone — the query
name is not trimmed (stored names are trimmed by the insert path, but the
comparison itself applies only `LOWER` to both sides). -/
theorem hasVoted_spec (s : Store) (name : List Char) :
    hasVoted s name = true ↔
      ∃ v, v ∈ s.votes ∧ lowerStr v.voterName = lowerStr name := by
  simp [hasVoted, hasVotedCheck, List.any_eq_true]

/-- C5 witness: a pure case difference is still found. -/
theorem hasVoted_spec_witness :
    hasVoted demoVoted ['A', 'l', 'i', 'c', 'e'] = true :=
  (hasVoted_spec demoVoted ['A', 'l', 'i', 'c', 'e']).mpr
    ⟨{ id := 1, voterName := ['a', 'l', 'i', 'c', 'e'], candidateId := 1, timestamp := 0 },
     by decide, by decide⟩

/-- C7: `DELETE /api/votes` deletes every vote, reports the number of
deleted rows, forces `results_published` back to the string false
whatever it was, and empties the voters list; candidates are untouched. -/
theorem resetVotes_spec (s : Store) :
    (resetVotes s).1 = s.votes.length ∧
    (resetVotes s).2.votes = [] ∧
    (resetVotes s).2.settings.results_published = "false".toList ∧
    listVoters (resetVotes s).2 = [] ∧
    (resetVotes s).2.candidates = s.candidates :=
  ⟨rfl, rfl, rfl, rfl, rfl⟩

/-- C9 counterexample: on a storage failure the candidates route answers
500 but its body carries the internal error message verbatim — it is not
the generic message, so internals do leak. -/
theorem internalError_leak_counterexample :
    (getCandidates (Except.error { message := "SQLITE_ERROR: no such table".toList })).status = 500 ∧
    (getCandidates (Except.error { message := "SQLITE_ERROR: no such table".toList })).error =
      some ("SQLITE_ERROR: no such table".toList) ∧
    ("SQLITE_ERROR: no such table".toList : List Char) ≠ "Something went wrong!".toList := by
  decide

/-- C9 (amended): `ValidationError` maps to 400, `NotFoundError` to 404
and `ConflictError` to 400 as claimed, and a storage failure maps to 500 —
but with a body equal to the internal error message (leaked); only the
terminal middleware, for exceptions thrown inside handlers, answers with
the generic message. -/
theorem error_status_mapping :
    (∀ e : DbErr, getCandidates (Except.error e) = { status := 500, error := some e.message }) ∧
    (∀ rows, getCandidates (Except.ok rows) = { status := 200, error := none }) ∧
    (∀ e : DbErr, errorMiddleware e =
      { status := 500, error := some ("Something went wrong!".toList) }) ∧
    castStatus CastResult.validationError = 400 ∧
    castStatus CastResult.conflictError = 400 ∧
    castStatus CastResult.notFoundError = 404 ∧
    (∀ i, castStatus (CastResult.ok i) = 200) ∧
    addStatus AddResult.validationError = 400 ∧
    removeStatus RemoveResult.conflictError = 400 ∧
    removeStatus RemoveResult.notFoundError = 404 :=
  ⟨fun _ => rfl, fun _ => rfl, fun _ => rfl, rfl, rfl, rfl, fun _ => rfl, rfl, rfl, rfl⟩

/-- C10: the publish route never rejects its body: it always answers 200,
stores the string true exactly when the `publish` field is truthy and the
string false for every other body — in particular an empty body (field
absent) silently unpublishes.  Votes and candidates are untouched. -/
theorem publishResults_spec (s : Store) (p : JsVal) :
    (publishResults s p).1 = { status := 200, error := none } ∧
    (publishResults s p).2.settings.results_published =
      (if truthy p then "true".toList else "false".toList) ∧
    (publishResults s JsVal.undef).2.settings.results_published = "false".toList ∧
    (publishResults s p).2.votes = s.votes ∧
    (publishResults s p).2.candidates = s.candidates :=
  ⟨rfl, rfl, rfl, rfl, rfl⟩

/-- Auxiliary induction for C6: starting from positions `1..k`, a run of
valid adds extends the position list to `1..k+N`, one new slot per call. -/
theorem addAll_positions (names : List (List Char)) :
    ∀ (s : Store) (k : Nat),
      (∀ m ∈ names, trimStr m ≠ []) →
      s.candidates.map (fun c => c.position) = posList k →
      (addAll s names).candidates.map (fun c => c.position) = posList (k + names.length) := by
  induction names with
  | nil => intro s k _ hpos; simpa using hpos
  | cons n ns ih =>
    intro s k hn hpos
    have htn : trimStr n ≠ [] := hn n (by simp)
    have hne : ¬(n = [] ∨ trimStr n = []) := by
      rintro (h | h)
      · apply htn; rw [h]; rfl
      · exact htn h
    have hval : (maxPosAux (posList k)).getD 0 + 1 = (k : Int) + 1 := by
      rw [maxPosAux_posList]
      by_cases h : k = 0
      · subst h; simp
      · simp [h]
    have hsplit : posList (k + 1) = posList k ++ [(k : Int) + 1] := by
      simp [posList, List.range_succ]
    have h2 : (addCandidate s (some n)).2 =
        { s with
          candidates := s.candidates ++
            [{ id := s.nextCandidateId, name := trimStr n
             , position := (maxPosAux (s.candidates.map (fun c => c.position))).getD 0 + 1 }]
          nextCandidateId := s.nextCandidateId + 1 } := by
      simp [addCandidate, hne]
    have hstep : (addCandidate s (some n)).2.candidates.map (fun c => c.position) =
        posList (k + 1) := by
      rw [h2]
      simp only [List.map_append, List.map_cons, List.map_nil]
      rw [hpos, hval, hsplit]
    show (addAll (addCandidate s (some n)).2 ns).candidates.map (fun c => c.position) = _
    have h3 := ih (addCandidate s (some n)).2 (k + 1) (fun m hm => hn m (by simp [hm])) hstep
    have h4 : k + 1 + ns.length = k + (ns.length + 1) := by omega
    rw [h3, h4]
    rfl

/-- C6: adding a candidate fails with a validation error exactly on a
missing, empty or whitespace-only name; a valid name is trimmed and
appended at position max-existing-plus-one (1 on an empty store); and a
run of `N` successful adds starting from an empty store yields positions
exactly `1..N` in call order. -/
theorem addCandidate_spec (s : Store) (n : List Char) (names : List (List Char)) (s0 : Store) :
    (addCandidate s none = (AddResult.validationError, s)) ∧
    (trimStr n = [] → addCandidate s (some n) = (AddResult.validationError, s)) ∧
    (trimStr n ≠ [] → ∃ c : Candidate,
      addCandidate s (some n) = (AddResult.ok c,
        { s with candidates := s.candidates ++ [c]
               , nextCandidateId := s.nextCandidateId + 1 }) ∧
      c.name = trimStr n ∧
      (s.candidates = [] → c.position = 1) ∧
      (∀ m, maxPosAux (s.candidates.map (fun x => x.position)) = some m → c.position = m + 1)) ∧
    ((∀ m ∈ names, trimStr m ≠ []) → s0.candidates = [] →
      (addAll s0 names).candidates.map (fun c => c.position) = posList names.length) := by
  refine ⟨rfl, ?_, ?_, ?_⟩
  · intro h
    have hor : n = [] ∨ trimStr n = [] := Or.inr h
    simp [addCandidate, hor]
  · intro h
    have hne : ¬(n = [] ∨ trimStr n = []) := by
      rintro (h1 | h1)
      · apply h; rw [h1]; rfl
      · exact h h1
    refine ⟨{ id := s.nextCandidateId, name := trimStr n
            , position := (maxPosAux (s.candidates.map (fun c => c.position))).getD 0 + 1 }
          , ?_, rfl, ?_, ?_⟩
    · simp [addCandidate, hne]
    · intro hc; simp [hc, maxPosAux]
    · intro m hm; simp [hm]
  · intro hn h0
    have h1 := addAll_positions names s0 0 hn (by simp [h0, posList])
    simpa using h1

/-- C6 witness: three adds on the empty store produce positions 1, 2, 3. -/
theorem addCandidate_spec_witness :
    (addAll emptyStore [['A'], ['B'], ['C']]).candidates.map (fun c => c.position) = posList 3 :=
  (addCandidate_spec emptyStore ['E'] [['A'], ['B'], ['C']] emptyStore).2.2.2 (by decide) rfl

/-- Bridge for the two spellings of the already-voted check: when every
stored name is trimmed, a case-fold match on the raw name implies a
case-fold match on the trimmed name (the vote route's own query). -/
theorem hasVotedCheck_trim (votes : List Vote) (vn : List Char)
    (htr : ∀ v ∈ votes, trimStr v.voterName = v.voterName)
    (h : hasVotedCheck votes vn = true) : hasVotedCheck votes (trimStr vn) = true := by
  rw [hasVotedCheck, List.any_eq_true] at h ⊢
  obtain ⟨w, hw, heq⟩ := h
  rw [beq_iff_eq] at heq
  refine ⟨w, hw, ?_⟩
  rw [beq_iff_eq]
  calc lowerStr w.voterName
      = lowerStr (trimStr w.voterName) := by rw [htr w hw]
    _ = trimStr (lowerStr w.voterName) := lowerStr_trimStr _
    _ = trimStr (lowerStr vn) := by rw [heq]
    _ = lowerStr (trimStr vn) := (lowerStr_trimStr _).symm

/-- C2: casting a vote preserves the invariant that stored names are
trimmed and pairwise distinct after trimming and case folding, and once a
vote by `v1` has been accepted, any second attempt under a name that is
trim-and-case-fold equal to `v1` cannot be accepted. -/
theorem castVote_voter_uniqueness (s : Store) (vn : Option (List Char)) (cid : Option Int)
    (t : Int) (v1 v2 : List Char) (c1 c2 : Option Int) (t1 t2 : Int)
    (htr : VotesTrimmed s) (hdis : VotersDistinct s) :
    (VotesTrimmed (castVote s vn cid t).2 ∧ VotersDistinct (castVote s vn cid t).2) ∧
    (VotesTrimmed emptyStore ∧ VotersDistinct emptyStore) ∧
    (lowerStr (trimStr v1) = lowerStr (trimStr v2) →
      isOk (castVote s (some v1) c1 t1).1 = true →
      isOk (castVote (castVote s (some v1) c1 t1).2 (some v2) c2 t2).1 = false) := by
  refine ⟨?_, ⟨fun v hv => absurd hv (List.not_mem_nil v), List.Pairwise.nil⟩, ?_⟩
  · cases vn with
    | none => exact ⟨htr, hdis⟩
    | some v =>
      cases cid with
      | none => exact ⟨htr, hdis⟩
      | some d =>
        by_cases h1 : v = [] ∨ d = 0
        · simp only [castVote, if_pos h1]
          exact ⟨htr, hdis⟩
        · by_cases h2 : hasVotedCheck s.votes (trimStr v) = true
          · simp only [castVote, if_neg h1, h2, if_pos]
            exact ⟨htr, hdis⟩
          · by_cases h3 : s.candidates.any (fun c => c.id == d) = true
            · simp only [castVote, if_neg h1, h2, Bool.false_eq_true, if_false, h3, if_pos]
              constructor
              · intro v' hv'
                rcases List.mem_append.mp hv' with hold | hnew
                · exact htr v' hold
                · rw [List.mem_singleton] at hnew
                  subst hnew
                  exact trimStr_trimStr v
              · rw [VotersDistinct]
                rw [List.pairwise_append]
                refine ⟨hdis, List.pairwise_singleton _ _, ?_⟩
                intro a ha b hb
                rw [List.mem_singleton] at hb
                subst hb
                intro heq
                apply h2
                rw [hasVotedCheck, List.any_eq_true]
                refine ⟨a, ha, ?_⟩
                rw [beq_iff_eq]
                rw [trimStr_trimStr] at heq
                rw [htr a ha] at heq
                exact heq
            · simp only [castVote, if_neg h1, h2, Bool.false_eq_true, if_false, h3]
              exact ⟨htr, hdis⟩
  · intro heq hsucc
    cases c1 with
    | none => simp [castVote, isOk] at hsucc
    | some d1 =>
      by_cases h1 : v1 = [] ∨ d1 = 0
      · simp [castVote, h1, isOk] at hsucc
      · by_cases h2 : hasVotedCheck s.votes (trimStr v1) = true
        · simp [castVote, h1, h2, isOk] at hsucc
        · by_cases h3 : s.candidates.any (fun c => c.id == d1) = true
          · have hs2 : (castVote s (some v1) (some d1) t1).2 =
                { s with
                  votes := s.votes ++
                    [{ id := s.nextVoteId, voterName := trimStr v1
                     , candidateId := d1, timestamp := t1 }]
                  nextVoteId := s.nextVoteId + 1 } := by
              simp [castVote, h1, h2, h3]
            rw [hs2]
            cases c2 with
            | none => simp [castVote, isOk]
            | some d2 =>
              by_cases h4 : v2 = [] ∨ d2 = 0
              · simp [castVote, h4, isOk]
              · have hcheck : hasVotedCheck
                    (s.votes ++
                      [{ id := s.nextVoteId, voterName := trimStr v1
                       , candidateId := d1, timestamp := t1 }]) (trimStr v2) = true := by
                  rw [hasVotedCheck, List.any_eq_true]
                  refine ⟨_, List.mem_append_right _ (List.mem_singleton.mpr rfl), ?_⟩
                  rw [beq_iff_eq]
                  exact heq
                simp [castVote, h4, hcheck, isOk]
          · simp [castVote, h1, h2, h3, isOk] at hsucc

/-- C2 witness: after `Alice` votes, the case-variant `ALICE` is refused. -/
theorem castVote_voter_uniqueness_witness :
    isOk (castVote (castVote demoOneCand (some ['A', 'l', 'i', 'c', 'e']) (some 1) 0).2
      (some ['A', 'L', 'I', 'C', 'E']) (some 1) 1).1 = false :=
  ((castVote_voter_uniqueness demoOneCand none none 0
      ['A', 'l', 'i', 'c', 'e'] ['A', 'L', 'I', 'C', 'E'] (some 1) (some 1) 0 1
      (fun v hv => absurd hv (List.not_mem_nil v)) List.Pairwise.nil).2.2)
    (by decide) (by decide)

/-- C4 counterexample: with a present voter name, a present (but zero)
candidate id that references no existing candidate, and a voter who has
not voted, the route answers a validation error — not the not-found error
the claim requires — because `!candidateId` also rejects the falsy `0`. -/
theorem castVote_falsy_counterexample :
    (castVote demoOneCand (some ['B', 'o', 'b']) (some 0) 0).1 = CastResult.validationError ∧
    (castVote demoOneCand (some ['B', 'o', 'b']) (some 0) 0).1 ≠ CastResult.notFoundError ∧
    demoOneCand.candidates.any (fun c => c.id == 0) = false ∧
    hasVoted demoOneCand ['B', 'o', 'b'] = false := by
  decide

/-- C4 (amended): the vote route's guards run in order and cover every
input — validation rejects a missing or falsy voter name or candidate id
(so also the empty string and the id 0); then the route's own
already-voted query on the TRIMMED name forces a conflict (in particular
it fires whenever `hasVoted` of the raw name is true, so also for
whitespace-padded repeat voters); then a missing candidate forces
not-found; otherwise exactly one new vote with the trimmed name and the
current timestamp is appended.  Every failing path leaves the store
unchanged. -/
theorem castVote_checks (s : Store) (vn : List Char) (cid : Int) (t : Int)
    (htr : VotesTrimmed s) :
    (castVote s none (some cid) t = (CastResult.validationError, s)) ∧
    (castVote s (some vn) none t = (CastResult.validationError, s)) ∧
    (castVote s (some []) (some cid) t = (CastResult.validationError, s)) ∧
    (castVote s (some vn) (some 0) t = (CastResult.validationError, s)) ∧
    (vn ≠ [] → cid ≠ 0 → hasVotedCheck s.votes (trimStr vn) = true →
      castVote s (some vn) (some cid) t = (CastResult.conflictError, s)) ∧
    (hasVoted s vn = true → hasVotedCheck s.votes (trimStr vn) = true) ∧
    (vn ≠ [] → cid ≠ 0 → hasVotedCheck s.votes (trimStr vn) = false →
      s.candidates.any (fun c => c.id == cid) = false →
      castVote s (some vn) (some cid) t = (CastResult.notFoundError, s)) ∧
    (vn ≠ [] → cid ≠ 0 → hasVotedCheck s.votes (trimStr vn) = false →
      s.candidates.any (fun c => c.id == cid) = true →
      castVote s (some vn) (some cid) t =
        (CastResult.ok s.nextVoteId,
         { s with
           votes := s.votes ++
             [{ id := s.nextVoteId, voterName := trimStr vn
              , candidateId := cid, timestamp := t }]
           nextVoteId := s.nextVoteId + 1 })) := by
  refine ⟨rfl, rfl, by simp [castVote], by simp [castVote], ?_, ?_, ?_, ?_⟩
  · intro hv hc h2
    have hne : ¬(vn = [] ∨ cid = 0) := by
      rintro (h | h)
      · exact hv h
      · exact hc h
    simp [castVote, hne, h2]
  · intro hvoted
    exact hasVotedCheck_trim s.votes vn htr hvoted
  · intro hv hc h2 h3
    have hne : ¬(vn = [] ∨ cid = 0) := by
      rintro (h | h)
      · exact hv h
      · exact hc h
    simp [castVote, hne, h2, h3]
  · intro hv hc h2 h3
    have hne : ¬(vn = [] ∨ cid = 0) := by
      rintro (h | h)
      · exact hv h
      · exact hc h
    simp [castVote, hne, h2, h3]

/-- C4 witness: a fresh voter and an existing candidate produce exactly
one appended, timestamped vote. -/
theorem castVote_checks_witness :
    castVote demoOneCand (some ['B', 'o', 'b']) (some 1) 5 =
      (CastResult.ok demoOneCand.nextVoteId,
       { demoOneCand with
         votes := demoOneCand.votes ++
           [{ id := demoOneCand.nextVoteId, voterName := trimStr ['B', 'o', 'b']
            , candidateId := 1, timestamp := 5 }]
         nextVoteId := demoOneCand.nextVoteId + 1 }) :=
  (castVote_checks demoOneCand ['B', 'o', 'b'] 1 5
      (fun v hv => absurd hv (List.not_mem_nil v))).2.2.2.2.2.2.2
    (by decide) (by decide) (by decide) (by decide)

/-- With an empty candidates table (`Math.max` of nothing) there are no
winners. -/
theorem winnersOf_max_none (s : Store) (h : maxVotesOf s = none) : winnersOf s = [] := by
  simp [winnersOf, h]

/-- Unfolding of `winnersOf` once the maximum is known. -/
theorem winnersOf_max_some (s : Store) (m : Nat) (h : maxVotesOf s = some m) :
    winnersOf s = (resultsOf s).filter (fun r => r.vote_count == m && decide (0 < m)) := by
  simp only [winnersOf, h]

/-- With a positive maximum, the winners are exactly the attainers. -/
theorem winnersOf_pos (s : Store) (m : Nat) (h : maxVotesOf s = some m) (hm : 0 < m) :
    winnersOf s = (resultsOf s).filter (fun r => r.vote_count == m) := by
  rw [winnersOf_max_some s m h]
  simp [hm]

/-- With maximum zero (no votes at all), there are no winners. -/
theorem winnersOf_zero (s : Store) (h : maxVotesOf s = some 0) : winnersOf s = [] := by
  rw [winnersOf_max_some s 0 h]
  simp

/-- C3: the tally has a winner exactly when a positive maximum vote count
is attained by exactly one row (and the winner is that row, carrying the
maximum); `tie` holds exactly when a positive maximum is shared by two or
more rows.  Counts 3/3/1 give a tie and no winner, 5/2/1 give the
five-vote candidate as winner, and 0/0/0 give neither winner nor tie. -/
theorem tally_winner_tie_spec (s : Store) :
    ((tally s).winner.isSome = true ↔
      ∃ m, maxVotesOf s = some m ∧ 0 < m ∧
        ((resultsOf s).filter (fun r => r.vote_count == m)).length = 1) ∧
    (∀ w, (tally s).winner = some w →
      w ∈ resultsOf s ∧ maxVotesOf s = some w.vote_count ∧ 0 < w.vote_count) ∧
    ((tally s).tie = true ↔
      ∃ m, maxVotesOf s = some m ∧ 0 < m ∧
        2 ≤ ((resultsOf s).filter (fun r => r.vote_count == m)).length) ∧
    ((tally s).results = resultsOf s) ∧
    ((tally demo331).tie = true ∧ (tally demo331).winner = none) ∧
    ((tally demo521).winner.map (fun r => r.id) = some 1 ∧
      (tally demo521).winner.map (fun r => r.vote_count) = some 5 ∧
      (tally demo521).tie = false) ∧
    ((tally demo000).winner = none ∧ (tally demo000).tie = false) := by
  have hwinner : (tally s).winner =
      if (winnersOf s).length = 1 then (winnersOf s).head? else none := rfl
  have htie : (tally s).tie =
      (decide (1 < (winnersOf s).length) &&
        match maxVotesOf s with
        | some m => decide (0 < m)
        | none => false) := rfl
  refine ⟨?_, ?_, ?_, rfl, by decide, by decide, by decide⟩
  · cases hm : maxVotesOf s with
    | none =>
      have hw := winnersOf_max_none s hm
      constructor
      · intro h
        rw [hwinner, hw] at h
        simp at h
      · rintro ⟨m, hm2, -, -⟩
        exact Option.noConfusion hm2
    | some m =>
      by_cases hpos : 0 < m
      · have hw := winnersOf_pos s m hm hpos
        constructor
        · intro h
          refine ⟨m, rfl, hpos, ?_⟩
          by_cases hlen : (winnersOf s).length = 1
          · rw [hw] at hlen
            exact hlen
          · rw [hwinner, if_neg hlen] at h
            simp at h
        · rintro ⟨m2, hm2, -, hlen⟩
          injection hm2 with hm3
          subst hm3
          have hlen2 : (winnersOf s).length = 1 := by rw [hw]; exact hlen
          rw [hwinner, if_pos hlen2]
          obtain ⟨a, ha⟩ := List.length_eq_one.mp hlen2
          rw [ha]
          rfl
      · have hm0 : m = 0 := by omega
        subst hm0
        have hw := winnersOf_zero s hm
        constructor
        · intro h
          rw [hwinner, hw] at h
          simp at h
        · rintro ⟨m2, hm2, hpos2, -⟩
          injection hm2 with hm3
          omega
  · intro w h
    by_cases hlen : (winnersOf s).length = 1
    · rw [hwinner, if_pos hlen] at h
      obtain ⟨a, ha⟩ := List.length_eq_one.mp hlen
      rw [ha] at h
      simp only [List.head?, Option.some.injEq] at h
      have hwmem : w ∈ winnersOf s := by
        rw [ha, h]
        exact List.mem_singleton.mpr rfl
      cases hm : maxVotesOf s with
      | none =>
        rw [winnersOf_max_none s hm] at hwmem
        simp at hwmem
      | some m =>
        rw [winnersOf_max_some s m hm] at hwmem
        have hmem := List.mem_filter.mp hwmem
        have hpred := hmem.2
        rw [Bool.and_eq_true] at hpred
        have hcount : w.vote_count = m := by
          have := hpred.1
          rwa [beq_iff_eq] at this
        have hpos : 0 < m := by
          have := hpred.2
          simpa using this
        subst hcount
        exact ⟨hmem.1, rfl, hpos⟩
    · rw [hwinner, if_neg hlen] at h
      cases h
  · cases hm : maxVotesOf s with
    | none =>
      have hw := winnersOf_max_none s hm
      rw [htie, hm]
      constructor
      · intro h
        simp at h
      · rintro ⟨m, hm2, -, -⟩
        exact Option.noConfusion hm2
    | some m =>
      by_cases hpos : 0 < m
      · have hw := winnersOf_pos s m hm hpos
        rw [htie, hm]
        constructor
        · intro h
          rw [Bool.and_eq_true] at h
          have h1 : 1 < (winnersOf s).length := by
            have := h.1
            simpa using this
          refine ⟨m, rfl, hpos, ?_⟩
          rw [hw] at h1
          omega
        · rintro ⟨m2, hm2, -, hlen⟩
          injection hm2 with hm3
          subst hm3
          have h1 : 1 < (winnersOf s).length := by rw [hw]; omega
          simp [h1, hpos]
      · have hm0 : m = 0 := by omega
        subst hm0
        rw [htie, hm]
        constructor
        · intro h
          rw [Bool.and_eq_true] at h
          have := h.2
          simp at this
        · rintro ⟨m2, hm2, hpos2, -⟩
          injection hm2 with hm3
          omega

/-- C3 witness: instantiation at the 5/2/1 store. -/
theorem tally_winner_tie_witness :
    (tally demo521).winner.map (fun r => r.id) = some 1 ∧
    (tally demo521).winner.map (fun r => r.vote_count) = some 5 ∧
    (tally demo521).tie = false :=
  (tally_winner_tie_spec demo521).2.2.2.2.2.1
/-- The double nearest to the exact share 23/80. -/
theorem log_share_23_80 : Int.log 2 ((23 : ℚ) / 80) = -2 := by
  apply int_log_eq_of _ _ (by norm_num)
  · show (2 : ℚ) ^ (-2 : ℤ) ≤ _
    norm_num
  · show _ < (2 : ℚ) ^ ((-2 : ℤ) + 1)
    norm_num

/-- Binary64 rounds 23/80 = 0.2875 down to a value strictly below it. -/
theorem toDouble_23_80 : toDouble ((23 : ℚ) / 80) = 2589569785738035 / 9007199254740992 := by
  rw [toDouble, if_neg (by norm_num), log_share_23_80]
  have h1 : (23 : ℚ) / 80 / 2 ^ ((-2 : ℤ) - 52) = 414331165718085632 / 80 := by
    rw [show ((-2 : ℤ) - 52) = -(54 : ℤ) from by decide, zpow_neg, div_eq_mul_inv, inv_inv]
    norm_num
  rw [h1]
  have hf : ⌊(414331165718085632 / 80 : ℚ)⌋ = 5179139571476070 := by
    rw [Int.floor_eq_iff]
    norm_num
  rw [rne, hf, if_pos (by norm_num)]
  rw [show ((-2 : ℤ) - 52) = -(54 : ℤ) from by decide, zpow_neg]
  norm_num

/-- The exponent of the product double times 100. -/
theorem log_share_23_80_x100 :
    Int.log 2 ((2589569785738035 / 9007199254740992 : ℚ) * 100) = 4 := by
  apply int_log_eq_of _ _ (by norm_num)
  · show (2 : ℚ) ^ (4 : ℤ) ≤ _
    norm_num
  · show _ < (2 : ℚ) ^ ((4 : ℤ) + 1)
    norm_num

/-- Multiplying that double by 100 in binary64 lands at
28.749999999999996…, strictly below the decimal tie 28.75. -/
theorem toDouble_23_80_x100 :
    toDouble ((2589569785738035 / 9007199254740992 : ℚ) * 100) =
      8092405580431359 / 281474976710656 := by
  rw [toDouble, if_neg (by norm_num), log_share_23_80_x100]
  have h1 : (2589569785738035 / 9007199254740992 : ℚ) * 100 / 2 ^ ((4 : ℤ) - 52) =
      64739244643450875 / 8 := by
    rw [show ((4 : ℤ) - 52) = -(48 : ℤ) from by decide, zpow_neg, div_eq_mul_inv, inv_inv]
    norm_num
  rw [h1]
  have hf : ⌊(64739244643450875 / 8 : ℚ)⌋ = 8092405580431359 := by
    rw [Int.floor_eq_iff]
    norm_num
  rw [rne, hf, if_pos (by norm_num)]
  rw [show ((4 : ℤ) - 52) = -(48 : ℤ) from by decide, zpow_neg]
  norm_num

/-- The program's percentage for 23 votes of 80: toFixed(1) of the
binary64 value prints 28.7. -/
theorem jsPct_23_80 : jsPct 23 80 = 287 / 10 := by
  have hcast : ((23 : ℕ) : ℚ) / ((80 : ℕ) : ℚ) = (23 : ℚ) / 80 := by norm_num
  rw [jsPct, hcast, toDouble_23_80, toDouble_23_80_x100, round1]
  have hf : ⌊(8092405580431359 / 281474976710656 : ℚ) * 10 + 1 / 2⌋ = 287 := by
    rw [Int.floor_eq_iff]
    norm_num
  rw [hf]
  norm_num

/-- Standard decimal rounding of the exact share 28.75 gives 28.8. -/
theorem round1_23_80 : round1 ((23 : ℚ) / (80 : ℚ) * 100) = 144 / 5 := by
  rw [round1]
  have hf : ⌊(23 : ℚ) / 80 * 100 * 10 + 1 / 2⌋ = 288 := by
    rw [Int.floor_eq_iff]
    norm_num
  rw [hf]
  norm_num

/-- C8 counterexample: on a store with 23 votes of 80 for the first
candidate, the tally's percentage is 28.7 — the `toFixed(1)` of the
binary64-computed share, which lands below the decimal tie — while the
claimed standard rounding of the exact vote share gives 28.8. -/
theorem percentage_float_counterexample :
    totalVotesOf s80 = 80 ∧
    ((resultsOf s80).map (fun r => (r.vote_count, r.percentage))).head? =
      some (23, jsPct 23 80) ∧
    jsPct 23 80 = 287 / 10 ∧
    round1 ((23 : ℚ) / (80 : ℚ) * 100) = 144 / 5 ∧
    ((287 : ℚ) / 10) ≠ 144 / 5 := by
  refine ⟨by decide, rfl, jsPct_23_80, round1_23_80, by norm_num⟩

/-- C8 (amended): every candidate row gets a percentage (none is
excluded); with no votes every percentage is the literal 0; with votes,
each percentage is `toFixed(1)` of the share computed in binary64 — which
can differ from exact decimal rounding at display-tie boundaries — and
the percentages still sum to 100 up to one tenth per candidate. -/
theorem tally_percentages (s : Store) :
    ((tally s).results = resultsOf s) ∧
    ((tally s).totalVotes = totalVotesOf s) ∧
    ((resultsOf s).length = s.candidates.length) ∧
    (totalVotesOf s = 0 → ∀ r ∈ resultsOf s, r.percentage = 0) ∧
    (0 < totalVotesOf s →
      (∀ r ∈ resultsOf s, r.percentage = jsPct r.vote_count (totalVotesOf s)) ∧
      |((resultsOf s).map (fun r => r.percentage)).sum - 100| ≤
        ((resultsOf s).length : ℚ) * (1 / 10)) := by
  refine ⟨rfl, rfl, ?_, ?_, ?_⟩
  · simp [resultsOf, tallyRows, sortByPosition, List.length_insertionSort]
  · intro h0 r hr
    obtain ⟨p, hp, rfl⟩ := List.mem_map.mp hr
    simp [h0]
  · intro h
    constructor
    · intro r hr
      obtain ⟨p, hp, rfl⟩ := List.mem_map.mp hr
      simp [h]
    · have hmap : (resultsOf s).map (fun r => r.percentage) =
          ((tallyRows s).map (fun p => p.2)).map (fun n => jsPct n (totalVotesOf s)) := by
        rw [resultsOf, List.map_map, List.map_map]
        apply List.map_congr_left
        intro p hp
        simp [Function.comp, h]
      have hshares : (((tallyRows s).map (fun p => p.2)).map
          (fun n : Nat => (n : ℚ) / (totalVotesOf s : ℚ) * 100)).sum = 100 := by
        have hcongr : ((tallyRows s).map (fun p => p.2)).map
            (fun n : Nat => (n : ℚ) / (totalVotesOf s : ℚ) * 100) =
              ((tallyRows s).map (fun p => p.2)).map
            (fun n : Nat => (n : ℚ) * (100 / (totalVotesOf s : ℚ))) := by
          apply List.map_congr_left
          intro n hn
          ring
        have hcast : ((((tallyRows s).map (fun p => p.2)).sum : Nat) : ℚ) =
            ((totalVotesOf s : Nat) : ℚ) := rfl
        have hT : (totalVotesOf s : ℚ) ≠ 0 := Nat.cast_ne_zero.mpr (by omega)
        rw [hcongr, sum_map_cast_mul, hcast]
        field_simp
      have hpt : ∀ n ∈ (tallyRows s).map (fun p => p.2),
          |jsPct n (totalVotesOf s) - (n : ℚ) / (totalVotesOf s : ℚ) * 100| ≤
            1 / 20 + 1 / 2 ^ 43 := by
        intro n hn
        have hcle : n ≤ totalVotesOf s := mem_le_sum _ _ hn
        have hs := share_err n (totalVotesOf s) hcle h
        have hr := round1_err (toDouble (toDouble ((n : ℚ) / (totalVotesOf s : ℚ)) * 100))
        calc |jsPct n (totalVotesOf s) - (n : ℚ) / (totalVotesOf s : ℚ) * 100|
            ≤ |jsPct n (totalVotesOf s) -
                toDouble (toDouble ((n : ℚ) / (totalVotesOf s : ℚ)) * 100)| +
              |toDouble (toDouble ((n : ℚ) / (totalVotesOf s : ℚ)) * 100) -
                (n : ℚ) / (totalVotesOf s : ℚ) * 100| := abs_sub_le _ _ _
          _ ≤ 1 / 20 + 1 / 2 ^ 43 := add_le_add (by rw [jsPct]; exact hr) hs
      have hbound := sum_map_err_le ((tallyRows s).map (fun p => p.2))
          (fun n => jsPct n (totalVotesOf s))
          (fun n : Nat => (n : ℚ) / (totalVotesOf s : ℚ) * 100)
          (1 / 20 + 1 / 2 ^ 43) hpt
      rw [hshares] at hbound
      rw [hmap]
      refine le_trans hbound ?_
      have hlen : ((((tallyRows s).map (fun p => p.2)).length : ℕ) : ℚ) =
          ((resultsOf s).length : ℚ) := by
        simp [resultsOf]
      rw [hlen]
      apply mul_le_mul_of_nonneg_left (by norm_num) (by positivity)

/-- C8 witness: with counts 1/1/1 the percentages are within 0.3 of 100. -/
theorem tally_percentages_witness :
    |((resultsOf demoThirds).map (fun r => r.percentage)).sum - 100| ≤
      ((resultsOf demoThirds).length : ℚ) * (1 / 10) :=
  ((tally_percentages demoThirds).2.2.2.2 (by decide)).2
